import Mathlib

/-!
# Verification development for the `charset` package

The package has two parts: a catalog of string constants (character sets) and
the sampler `RandomRunes`, which draws `length` runes from a rune slice using
the package-level generator `seededRand`.

The sampler is embedded as a function over an explicit generator state.
A run either returns the output slice together with the generator's new state
or stops with the Go run-time panic that the corresponding statement raises.
-/

namespace Charset

/-- A Go `rune`: an `int32` code point value. -/
abbrev Rune := Int

/-- The run-time panics reachable from the body of `RandomRunes`. -/
inductive Panic
  /-- `make([]rune, 0, length)` with a negative capacity:
  "makeslice: cap out of range". -/
  | makesliceCapOutOfRange
  /-- `(*rand.Rand).Intn(n)` with `n <= 0`: "invalid argument to Intn". -/
  | invalidArgumentToIntn
  /-- `charset[i]` with `i` outside `[0, len(charset))`: "index out of range". -/
  | indexOutOfRange
  deriving DecidableEq

/-- The generator behind `seededRand`. The type `*rand.Rand` belongs to the Go
standard library (`math/rand`), so it is taken as a parameter: a state type
`σ`, and the index that `Intn(n)` yields for a positive bound `n` together
with the state the generator is left in. `draw_lt` is the documented range of
`Intn`: the result lies in the half-open interval `[0, n)`. -/
structure RandSource (σ : Type) where
  /-- One index draw for a positive bound. -/
  draw : σ → Nat → Nat × σ
  /-- The drawn index is below the bound. -/
  draw_lt : ∀ (s : σ) (n : Nat), 0 < n → (draw s n).1 < n

/-- `seededRand.Intn(n)`: panics when `n <= 0`, otherwise draws an index in
`[0, n)` and advances the generator. -/
def Intn {σ : Type} (src : RandSource σ) (s : σ) (n : Int) : Except Panic (Int × σ) :=
  if n ≤ 0 then .error .invalidArgumentToIntn
  else .ok (((src.draw s n.toNat).1 : Int), (src.draw s n.toNat).2)

/-- The index expression `charset[i]`, with Go's bounds check. -/
def index (charset : List Rune) (i : Int) : Except Panic Rune :=
  if 0 ≤ i ∧ i < (charset.length : Int) then
    match charset[i.toNat]? with
    | some r => .ok r
    | none => .error .indexOutOfRange
  else .error .indexOutOfRange

/-- The `for i := 0; i < length; i++` loop of `RandomRunes`, by the number of
iterations that remain. Each iteration evaluates
`output = append(output, charset[seededRand.Intn(len(charset))])`. -/
def loop {σ : Type} (src : RandSource σ) (charset : List Rune) :
    Nat → List Rune → σ → Except Panic (List Rune × σ)
  | 0, output, s => .ok (output, s)
  | k + 1, output, s =>
    match Intn src s (charset.length : Int) with
    | .error e => .error e
    | .ok (i, s') =>
      match index charset i with
      | .error e => .error e
      | .ok r => loop src charset k (output ++ [r]) s'

/-- The size in bytes of a `rune` (an `int32`), the element type of `output`. -/
def runeSize : Int := 4

/-- The run-time's allocation limit `maxAlloc` on a 64-bit platform with 48
heap address bits (linux/amd64 among them): `1 << 48` bytes. -/
def maxAlloc : Int := 2 ^ 48

/-- The run-time's `makeslice` for `make([]rune, 0, length)`. It panics with
"makeslice: cap out of range" when the capacity is negative or when its size
in bytes, `runeSize * length`, exceeds `maxAlloc` (an overflowing product
exceeds it too): that is for `length < 0` and for `length > 2^46`. Otherwise
it yields the empty slice; within the limit the memory itself is taken to be
available. -/
def makeslice (length : Int) : Except Panic (List Rune) :=
  if length < 0 ∨ maxAlloc < runeSize * length then .error .makesliceCapOutOfRange
  else .ok []

/-- `RandomRunes(length, charset)` run from generator state `s`.
`output := make([]rune, 0, length)` panics for a `length` that is negative or
above the allocation limit; otherwise the loop runs `length` times and
`output` is returned. -/
def RandomRunes {σ : Type} (src : RandSource σ) (length : Int) (charset : List Rune)
    (s : σ) : Except Panic (List Rune × σ) :=
  match makeslice length with
  | .error e => .error e
  | .ok output => loop src charset length.toNat output s

/-- The first `n` indices that the generator yields for bound `k`, in draw
order, and the state after them. -/
def draws {σ : Type} (src : RandSource σ) (k : Nat) : Nat → σ → List Nat × σ
  | 0, s => ([], s)
  | n + 1, s =>
    ((src.draw s k).1 :: (draws src k n (src.draw s k).2).1,
      (draws src k n (src.draw s k).2).2)

/-- A generator that replays a script of raw values: each draw consumes the
head of the script and reduces it modulo the bound; an exhausted script
yields index 0. -/
def scripted : RandSource (List Nat) where
  draw := fun s n =>
    match s with
    | [] => (0, [])
    | x :: xs => (x % n, xs)
  draw_lt := by
    intro s n hn
    cases s with
    | nil => exact hn
    | cons x xs => exact Nat.mod_lt x hn

/-- A generator that yields index 0 at every draw, whatever its state; the
state counts the draws. -/
def stuck : RandSource Nat where
  draw := fun s _ => (0, s + 1)
  draw_lt := by
    intro s n hn
    exact hn

/-- A 64-bit linear congruential generator, as one concrete instance of the
generator interface. -/
def lcg : RandSource Nat where
  draw := fun s n =>
    (((6364136223846793005 * s + 1442695040888963407) % 2 ^ 64 / 2 ^ 33) % n,
      (6364136223846793005 * s + 1442695040888963407) % 2 ^ 64)
  draw_lt := by
    intro s n hn
    exact Nat.mod_lt _ hn

/-- The slice that a run returned, if it returned. -/
def output {σ : Type} : Except Panic (List Rune × σ) → Option (List Rune)
  | .ok (out, _) => some out
  | .error _ => none

/-- The result of `RandomRunes(n, charset)` when the `n` index draws are the
tuple `t` in `[0, k)^n`, `k = len(charset)`: the run from the scripted
generator whose script is `t`. -/
def sample (charset : List Rune) (n : Nat) (t : Fin n → Fin charset.length) :
    Option (List Rune) :=
  output (RandomRunes scripted (n : Int) charset (List.ofFn (fun j => (t j : Nat))))

/-! ## The sampler on an explicit store

The same statements of `RandomRunes`, run on the store they can reach, so that
what a call changes, and what it has done when it panics, can be stated. -/

/-- The store of one call of `RandomRunes`. -/
structure Store (σ : Type) where
  /-- The elements of the caller's `charset` slice. -/
  charset : List Rune
  /-- The elements appended to the local `output` so far. -/
  output : List Rune
  /-- The state of the package-level generator `seededRand`. -/
  rand : σ
  /-- The number of index draws made so far (calls of `seededRand.Intn` that
  returned). -/
  calls : Nat

/-- The store on entry to `RandomRunes(length, charset)` with the generator in
state `s`: nothing appended, nothing drawn. -/
def enter {σ : Type} (charset : List Rune) (s : σ) : Store σ :=
  { charset := charset, output := [], rand := s, calls := 0 }

/-- One evaluation of the loop body
`output = append(output, charset[seededRand.Intn(len(charset))])`.
A panic carries the store as it is when the panic is raised: `Intn` panics
before it touches the generator, the bounds check fails after the draw. -/
def iteration {σ : Type} (src : RandSource σ) (m : Store σ) :
    Except (Panic × Store σ) (Store σ) :=
  match Intn src m.rand (m.charset.length : Int) with
  | .error e => .error (e, m)
  | .ok (i, s') =>
    match index m.charset i with
    | .error e => .error (e, { m with rand := s', calls := m.calls + 1 })
    | .ok r => .ok { m with output := m.output ++ [r], rand := s', calls := m.calls + 1 }

/-- The `for` loop on the store, by the number of iterations that remain. -/
def iterations {σ : Type} (src : RandSource σ) :
    Nat → Store σ → Except (Panic × Store σ) (Store σ)
  | 0, m => .ok m
  | k + 1, m =>
    match iteration src m with
    | .error e => .error e
    | .ok m' => iterations src k m'

/-- `RandomRunes(length, charset)` on the store: `make` panics, for a `length`
that is negative or above the allocation limit, before anything else happens;
otherwise the loop runs `length` times on the slice that `make` returned; the
returned slice is the `output` of the final store. -/
def run {σ : Type} (src : RandSource σ) (length : Int) (charset : List Rune) (s : σ) :
    Except (Panic × Store σ) (Store σ) :=
  match makeslice length with
  | .error e => .error (e, enter charset s)
  | .ok output => iterations src length.toNat { enter charset s with output := output }

/-- What the caller observes of a run on the store: the returned slice and the
generator's state, or the panic. -/
def result {σ : Type} : Except (Panic × Store σ) (Store σ) → Except Panic (List Rune × σ)
  | .ok m => .ok (m.output, m.rand)
  | .error (e, _) => .error e

/-! ## Strings and the conversion `[]rune(s)` -/

/-- A Go `string`: a sequence of bytes. -/
abbrev GoString := List Nat

/-- The value of an interpreted string literal of the (UTF-8 encoded) source
file: the UTF-8 bytes of its text. None of the literals of the package
contains an escape sequence. -/
def literal (text : String) : GoString :=
  text.toUTF8.data.toList.map UInt8.toNat

/-- The rune `utf8.RuneError` (U+FFFD), which decoding yields for a byte that
does not start a well-formed UTF-8 sequence. -/
def runeError : Rune := 0xFFFD

/-- A continuation byte: `locb <= b && b <= hicb`. -/
def isCont (b : Nat) : Bool := 0x80 ≤ b && b ≤ 0xBF

/-- The two-byte value `rune(s0&mask2)<<6 | rune(s1&maskx)`. -/
def rune2 (s0 s1 : Nat) : Nat := (s0 &&& 0x1F) <<< 6 ||| (s1 &&& 0x3F)

/-- The three-byte value
`rune(s0&mask3)<<12 | rune(s1&maskx)<<6 | rune(s2&maskx)`. -/
def rune3 (s0 s1 s2 : Nat) : Nat :=
  (s0 &&& 0x0F) <<< 12 ||| (s1 &&& 0x3F) <<< 6 ||| (s2 &&& 0x3F)

/-- The four-byte value
`rune(s0&mask4)<<18 | rune(s1&maskx)<<12 | rune(s2&maskx)<<6 | rune(s3&maskx)`. -/
def rune4 (s0 s1 s2 s3 : Nat) : Nat :=
  (s0 &&& 0x07) <<< 18 ||| (s1 &&& 0x3F) <<< 12 ||| (s2 &&& 0x3F) <<< 6 ||| (s3 &&& 0x3F)

/-- The Go runtime's `decoderune` on the bytes from the current position on:
the decoded rune and the number of bytes it takes. Overlong forms, surrogate
halves, values above U+10FFFF, stray continuation bytes and truncated
sequences give `(runeError, 1)`. -/
def decoderune : GoString → Rune × Nat
  | [] => (runeError, 1)
  | s0 :: t =>
    if 0xC0 ≤ s0 ∧ s0 < 0xE0 then
      match t with
      | s1 :: _ =>
        if isCont s1 ∧ 0x7F < rune2 s0 s1 then ((rune2 s0 s1 : Int), 2)
        else (runeError, 1)
      | _ => (runeError, 1)
    else if 0xE0 ≤ s0 ∧ s0 < 0xF0 then
      match t with
      | s1 :: s2 :: _ =>
        if isCont s1 ∧ isCont s2 ∧ 0x7FF < rune3 s0 s1 s2 ∧
            ¬ (0xD800 ≤ rune3 s0 s1 s2 ∧ rune3 s0 s1 s2 ≤ 0xDFFF) then
          ((rune3 s0 s1 s2 : Int), 3)
        else (runeError, 1)
      | _ => (runeError, 1)
    else if 0xF0 ≤ s0 ∧ s0 < 0xF8 then
      match t with
      | s1 :: s2 :: s3 :: _ =>
        if isCont s1 ∧ isCont s2 ∧ isCont s3 ∧ 0xFFFF < rune4 s0 s1 s2 s3 ∧
            rune4 s0 s1 s2 s3 ≤ 0x10FFFF then
          ((rune4 s0 s1 s2 s3 : Int), 4)
        else (runeError, 1)
      | _ => (runeError, 1)
    else (runeError, 1)

/-- The loop of the conversion `[]rune(s)` (`for _, r := range s`): a byte
below `0x80` is its own rune, any other position is decoded by `decoderune`.
The first argument counts the bytes of the rune just decoded that are still
to be stepped over. -/
def stringtoslicerune : Nat → GoString → List Rune
  | _, [] => []
  | skip + 1, _ :: rest => stringtoslicerune skip rest
  | 0, b :: rest =>
    if b < 0x80 then (b : Int) :: stringtoslicerune 0 rest
    else
      (decoderune (b :: rest)).1 ::
        stringtoslicerune ((decoderune (b :: rest)).2 - 1) rest

/-- The conversion `[]rune(s)`. -/
def runes (s : GoString) : List Rune := stringtoslicerune 0 s

/-- A Unicode scalar value: a code point up to U+10FFFF that is not a
surrogate. -/
def isScalarValue (r : Rune) : Prop :=
  0 ≤ r ∧ r ≤ 0x10FFFF ∧ ¬ (0xD800 ≤ r ∧ r ≤ 0xDFFF)

instance (r : Rune) : Decidable (isScalarValue r) := by
  unfold isScalarValue
  infer_instance

/-! ## The catalog -/

/-- Emoji represents set of emojis. -/
def Emoji : GoString := literal "🤡🤖🧟🏋🥇☟🚲🚠🐞🐜💄🐲🌓🌪🇵🇱💵"

/-- Sex represents set of symbols related with genders. -/
def Sex : GoString := literal "⚥⚩⚮⚭⚣⚢⚤⚯"

/-- Keyboard represents set of keyboard symbols. -/
def Keyboard : GoString := literal "⌘⎈✄↵✧✲⎇✦✧"

/-- Currencies represents set of financial currencies. -/
def Currencies : GoString := literal "₿£$¢₰₱₣₳฿₲₭₥₦₱₽₴₮₩"

/-- Greek represents set of greek characters. -/
def Greek : GoString := literal "αβδεθλμπφψΩ𝞕𝞖𝞗𝞘𝝽𝝾𝝿𝞀𝞂"

/-- MathematicalSymbols represents set of mathematical symbols. -/
def MathematicalSymbols : GoString := literal "∛ℤℝ⋃⋂⋡⪺≠⊐∵∧⦝⊕∯∑∏⊶⫝̸⦕⟪⦅」⟅⦋"

/-- MathematicalFonts represents set of different letters and numbers in different
mathematical fonts. -/
def MathematicalFonts : GoString := literal "𝔄𝔞𝕭𝖇𝔻𝕕𝟛𝐅𝐟𝐿𝑙𝑴𝒎𝒩𝓃𝓞𝓸𝖶𝗐𝗫𝘅𝟭𝘠𝘺𝚉𝚣"

/-- InvertedLetters represents set of inverted letters. -/
def InvertedLetters : GoString := literal "Z⅄XʍɅ∩ꞱSᴚÒԀONƜꞀꞰſIH⅁ℲƎDƆBⱯzʎxʍʌnʇsɹbdouɯꞁʞfᴉɥᵷɟǝpɔqɐ"

/-- Braille is used by blind people. -/
def Braille : GoString := literal "⠞⠽⠏⠑⠓⠑⠗⠑"

/-- IPA International Phonetic Alphabet (IPA) is a phonetic (pronunciation) notation
designed for all human languages. -/
def IPA : GoString := literal "āäēĕæɛiːɝo͞o"

/-- FullWidthCharacters A full-width character means the character has the same width as a
Chinese character, regardless of font choice. -/
def FullWidthCharacters : GoString := literal "０ＣＤ￦￤ｒｐａｒｔｉｃｕｌａｒ"

/-- Units represents set of unit symbols. -/
def Units : GoString := literal "㎛㎠㎢㎖㎲㎏㎆㎑㎷㏀㎃㎨㎮㎪㎉㏑㍱㏖"

/-- Latin Alphabet (aka Roman alphabet) is used to write most Western languages, including:
English, German, French, Spanish, Italian. -/
def Latin : GoString := literal "ᴁèóƃᶐɷȷᴂɒᴝᴥ"

/-- Russian represents set of only russian letters. -/
def Russian : GoString :=
  literal "АаБбВвГгДдЕеЁёЖжЗзИиЙйКкЛлМмНнОоПпРрСсТтУуФфХхЦцЧчШшЩщЪъЫыЬьЭэЮюЯя"

/-- Cyrillic The Cyrillic script is a writing system used for various alphabets used in
Eastern Europe, the Caucasus, Central Asia, and North Asia. -/
def Cyrillic : GoString := Russian ++ literal "ԆҤ҂ԔԙӜԨԬӦӴѠѼ"

/-- Chinese There are many thousands of Chinese characters. A college educated Chinese
person typically know 5 thousand character. 3 thousand is minimum to read newspapers. -/
def Chinese : GoString := literal "的一是在不了有和人这中大为上个国相见欢·林花谢了春红"

/-- Japanese represents set of Japanese characters. -/
def Japanese : GoString := literal "あいうえアイウエオ・ヽヾヿｱｲｳｴｵｶｷｸ"

/-- Korean represents set of Korean characters. -/
def Korean : GoString := literal "ᅒᅓᅔᅕᅖᅗᅘᆪᆫᆬᆭᆮᆯᆰ"

/-- Arabic represents set of Arabic characters. -/
def Arabic : GoString := literal "ﷺ﷽ﵴﴙﲀ۝ﲂ۞؊٩١۲ݶمڮجݗݨݳھڝ"

/-- Ethiopian represents set of Ethiopian characters. It is third in Africa, followed by
West African Cats and East Africa. -/
def Ethiopian : GoString := literal "ቷቸቹጟጠኸኹⶹꬨꬩꬖꬠ᎐᎑᎒፣፤፥፪፫፬የኢትዮጵያ፡መ"

/-- Devanagari represents set of Indian characters. The most popular language of the Indo-
Aryan family is Hindi, and Hindi uses Devanagari as its writing system. -/
def Devanagari : GoString := literal "ऒओॺॻ॥॰षस१२३ळऴ"

/-- Bengali represents set of Bengali characters. Bengali script is mainly used by languages
Bengali and Assamese, in India. -/
def Bengali : GoString := literal "ঊঋজঝঞলশ৪৫৵৶ঁংৗৢ"

/-- Tamil represents set of Tamil characters. It is an abugida script that is used by Tamils
and Tamil speakers in India, Sri Lanka, Malaysia, Singapore, Indonesia. -/
def Tamil : GoString := literal "ஃஅஆஇணதந௫௬௭ௐ௳௴ோ ௌ"

/-- Tibetan represents set of Tibetan characters. -/
def Tibetan : GoString := literal "གྷངཅ༳༪༫༐༑༒࿄࿅࿇࿈༚༛༜࿐࿑࿒ ཱ ི ཱི༻༼ ༽ྨ ྩ"

/-- Phoenician represents set of Phoenican characters. Phoenician is the oldest alphabet. It
began around 1200 BC. -/
def Phoenician : GoString := literal "𐤟𐤛𐤗𐤘𐤒𐤓𐤔𐤕"

/-- Runes represents set of old runes. Rune alphabets was used to write various Germanic
languages before the adoption of the Latin alphabet. -/
def Runes : GoString := literal "ᚠᚡᚢᛋᛌᛍ"

/-- Unicode represents set of Unicode characters (contain multi byte runes). -/
def Unicode : GoString :=
  Emoji ++ Sex ++ Keyboard ++ Currencies ++ Greek ++ MathematicalSymbols ++
    MathematicalFonts ++ InvertedLetters ++ Braille ++ IPA ++ FullWidthCharacters ++
    Units ++ Latin ++ Cyrillic ++ Chinese ++ Japanese ++ Korean ++ Arabic ++
    Ethiopian ++ Devanagari ++ Bengali ++ Tamil ++ Tibetan ++ Phoenician ++ Runes

/-- ASCII represents set containing only ASCII characters. -/
def ASCII : GoString :=
  literal " !#$%&()*+,-.0123456789:;=?@ABCDEFGHIJKLMNOPQRSTUVWXYZ^_abcdefghijklmnopqrstuvwxyz|~"

/-- Polish represents set of only polish letters. -/
def Polish : GoString :=
  literal "ĄąĆćĘęŁłŃńÓóŚśŹźŻżabcdefghijklmnoprstuwvxyzABCDEFGHIJKLMNOPRSTUWVXYZ"

/-- English represents set of only english letters. -/
def English : GoString := literal "abcdefghijklmnoprstuwvxyzABCDEFGHIJKLMNOPRSTUWVXYZ"

/-- The 30 named entries of the catalog. -/
def catalog : List GoString :=
  [Unicode, ASCII, Polish, English, Russian, MathematicalSymbols, MathematicalFonts,
    Emoji, Currencies, Sex, Keyboard, Greek, InvertedLetters, IPA, FullWidthCharacters,
    Units, Braille, Latin, Cyrillic, Chinese, Japanese, Korean, Arabic, Ethiopian,
    Devanagari, Bengali, Tamil, Tibetan, Phoenician, Runes]

/-- The literal suffix of `Cyrillic`, the part after `Russian +`. -/
def cyrillicSuffix : GoString := literal "ԆҤ҂ԔԙӜԨԬӦӴѠѼ"

/-! ## Alphabets -/

/-- The 32 letters of the Polish alphabet in lower case, then in upper case. -/
def polishAlphabet : GoString :=
  literal "aąbcćdeęfghijklłmnńoóprsśtuwyzźżAĄBCĆDEĘFGHIJKLŁMNŃOÓPRSŚTUWYZŹŻ"

/-- A letter of the Polish alphabet, in lower or upper case. -/
def isPolishLetter (r : Rune) : Prop := r ∈ runes polishAlphabet

/-- A letter of the English alphabet: `a`-`z` or `A`-`Z`. -/
def isEnglishLetter (r : Rune) : Prop :=
  (0x61 ≤ r ∧ r ≤ 0x7A) ∨ (0x41 ≤ r ∧ r ≤ 0x5A)

instance (r : Rune) : Decidable (isPolishLetter r) := by
  unfold isPolishLetter
  infer_instance

instance (r : Rune) : Decidable (isEnglishLetter r) := by
  unfold isEnglishLetter
  infer_instance

/-! ## The sampler: auxiliary facts -/

/-- Running the generator for `n` draws yields `n` indices. -/
theorem draws_length {σ : Type} (src : RandSource σ) (k n : Nat) (s : σ) :
    (draws src k n s).1.length = n := by
  induction n generalizing s with
  | zero => rfl
  | succ n ih => simp [draws, ih]

/-- For a positive bound every drawn index is below the bound. -/
theorem draws_lt {σ : Type} (src : RandSource σ) (k n : Nat) (s : σ) (hk : 0 < k) :
    ∀ i ∈ (draws src k n s).1, i < k := by
  induction n generalizing s with
  | zero => simp [draws]
  | succ n ih =>
    intro i hi
    simp only [draws, List.mem_cons] at hi
    rcases hi with rfl | hi
    · exact src.draw_lt s k hk
    · exact ih _ i hi

/-- For a positive bound `Intn` does not panic: it is one draw of the generator. -/
theorem Intn_pos {σ : Type} (src : RandSource σ) (s : σ) (k : Nat) (hk : 0 < k) :
    Intn src s (k : Int) = .ok (((src.draw s k).1 : Int), (src.draw s k).2) := by
  have : ¬ ((k : Int) ≤ 0) := by omega
  simp [Intn, this]

/-- An index inside the slice passes the bounds check. -/
theorem index_lt (charset : List Rune) (i : Nat) (hi : i < charset.length) :
    index charset (i : Int) = .ok (charset.get ⟨i, hi⟩) := by
  have h : 0 ≤ (i : Int) ∧ (i : Int) < (charset.length : Int) := by omega
  simp [index, h, List.getElem?_eq_getElem hi]

/-- The loop, run for `n` iterations on a non-empty charset, succeeds: it
appends `charset[i]` for each drawn index `i`, in draw order, and leaves the
generator in the state after `n` draws. -/
theorem loop_eq {σ : Type} (src : RandSource σ) (charset : List Rune)
    (hc : 0 < charset.length) (n : Nat) (output : List Rune) (s : σ) :
    ∃ picked : List Rune,
      loop src charset n output s
        = .ok (output ++ picked, (draws src charset.length n s).2) ∧
      picked.map some = (draws src charset.length n s).1.map (fun i => charset[i]?) := by
  induction n generalizing output s with
  | zero => exact ⟨[], by simp [loop, draws], by simp [draws]⟩
  | succ n ih =>
    have hlt := src.draw_lt s charset.length hc
    obtain ⟨picked, h1, h2⟩ :=
      ih (output ++ [charset.get ⟨(src.draw s charset.length).1, hlt⟩])
        (src.draw s charset.length).2
    refine ⟨charset.get ⟨(src.draw s charset.length).1, hlt⟩ :: picked, ?_, ?_⟩
    · simp only [loop, Intn_pos src s charset.length hc, index_lt charset _ hlt, h1, draws]
      simp
    · simp only [draws, List.map_cons, h2]
      simp [List.getElem?_eq_getElem hlt]

/-- `make` accepts every capacity from 0 to `2^46`. -/
theorem makeslice_ok (n : Int) (hn : 0 ≤ n) (hmax : n ≤ 2 ^ 46) : makeslice n = .ok [] := by
  have h : ¬ (n < 0 ∨ maxAlloc < runeSize * n) := by
    simp only [maxAlloc, runeSize]
    omega
  simp [makeslice, h]

/-- `make` rejects a negative capacity. -/
theorem makeslice_neg (n : Int) (hn : n < 0) :
    makeslice n = .error .makesliceCapOutOfRange := by
  simp [makeslice, hn]

/-- `make` rejects a capacity above `2^46`. -/
theorem makeslice_too_long (n : Int) (hn : 2 ^ 46 < n) :
    makeslice n = .error .makesliceCapOutOfRange := by
  have h : maxAlloc < runeSize * n := by
    simp only [maxAlloc, runeSize]
    omega
  simp [makeslice, h]

/-- On a non-empty charset and for a length from 0 to `2^46`, `RandomRunes`
returns: the output holds `charset[i]` for each of the first `length` drawn
indices `i`, in draw order, and the generator is left after those draws. -/
theorem RandomRunes_eq {σ : Type} (src : RandSource σ) (n : Int) (charset : List Rune)
    (s : σ) (hn : 0 ≤ n) (hmax : n ≤ 2 ^ 46) (hc : charset ≠ []) :
    ∃ out : List Rune,
      RandomRunes src n charset s
        = .ok (out, (draws src charset.length n.toNat s).2) ∧
      out.map some = (draws src charset.length n.toNat s).1.map (fun i => charset[i]?) := by
  have hlen : 0 < charset.length := List.length_pos.mpr hc
  obtain ⟨picked, h1, h2⟩ := loop_eq src charset hlen n.toNat [] s
  exact ⟨picked, by simpa [RandomRunes, makeslice_ok n hn hmax] using h1, h2⟩

/-- An output that holds `charset[i]` for each index of `idx` is as long as `idx`. -/
theorem length_of_map_some {out : List Rune} {idx : List Nat} {charset : List Rune}
    (h : out.map some = idx.map (fun i => charset[i]?)) : out.length = idx.length := by
  have := congrArg List.length h
  simpa using this

/-- An output that holds `charset[i]` for each index of `idx` has all its elements
in the charset. -/
theorem mem_of_map_some {out : List Rune} {idx : List Nat} {charset : List Rune}
    (h : out.map some = idx.map (fun i => charset[i]?)) : ∀ r ∈ out, r ∈ charset := by
  intro r hr
  have hmem : some r ∈ out.map some := List.mem_map_of_mem some hr
  rw [h, List.mem_map] at hmem
  obtain ⟨i, _, hi⟩ := hmem
  exact List.getElem?_mem hi

/-- A negative length stops at `make`, whatever the charset. -/
theorem RandomRunes_neg {σ : Type} (src : RandSource σ) (n : Int) (charset : List Rune)
    (s : σ) (hn : n < 0) :
    RandomRunes src n charset s = .error .makesliceCapOutOfRange := by
  simp [RandomRunes, makeslice_neg n hn]

/-- A length above `2^46` stops at `make`, whatever the charset. -/
theorem RandomRunes_too_long {σ : Type} (src : RandSource σ) (n : Int)
    (charset : List Rune) (s : σ) (hn : 2 ^ 46 < n) :
    RandomRunes src n charset s = .error .makesliceCapOutOfRange := by
  simp [RandomRunes, makeslice_too_long n hn]

/-- Length zero returns the empty slice without touching the generator. -/
theorem RandomRunes_zero {σ : Type} (src : RandSource σ) (charset : List Rune) (s : σ) :
    RandomRunes src 0 charset s = .ok ([], s) := by
  simp [RandomRunes, makeslice_ok 0 (le_refl 0) (by norm_num), loop]

/-- A positive length up to `2^46` on the empty charset stops at the first
`Intn(0)`. -/
theorem RandomRunes_nil_pos {σ : Type} (src : RandSource σ) (n : Int) (s : σ) (hn : 0 < n)
    (hmax : n ≤ 2 ^ 46) :
    RandomRunes src n [] s = .error .invalidArgumentToIntn := by
  obtain ⟨k, hk⟩ : ∃ k, n.toNat = k + 1 := ⟨n.toNat - 1, by omega⟩
  simp [RandomRunes, makeslice_ok n (by omega) hmax, hk, loop, Intn]

/-- Whenever `RandomRunes` returns, every returned element is in the charset. -/
theorem RandomRunes_ok_mem {σ : Type} (src : RandSource σ) (n : Int) (charset : List Rune)
    (s : σ) (out : List Rune) (s' : σ) (h : RandomRunes src n charset s = .ok (out, s')) :
    ∀ r ∈ out, r ∈ charset := by
  by_cases hneg : n < 0
  · rw [RandomRunes_neg src n charset s hneg] at h
    cases h
  · by_cases hlong : 2 ^ 46 < n
    · rw [RandomRunes_too_long src n charset s hlong] at h
      cases h
    · by_cases hc : charset = []
      · subst hc
        by_cases h0 : n = 0
        · subst h0
          rw [RandomRunes_zero] at h
          injection h with h
          have : out = [] := (congrArg Prod.fst h).symm
          subst this
          intro r hr
          cases hr
        · rw [RandomRunes_nil_pos src n s (by omega) (by omega)] at h
          cases h
      · obtain ⟨out', h1, h2⟩ := RandomRunes_eq src n charset s (by omega) (by omega) hc
        rw [h1] at h
        injection h with h
        have : out' = out := congrArg Prod.fst h
        subst this
        exact mem_of_map_some h2

/-- The scripted generator, run for the length of a script of indices below the
bound, yields exactly that script and exhausts it. -/
theorem draws_scripted (k : Nat) (l : List Nat) (hl : ∀ x ∈ l, x < k) :
    draws scripted k l.length l = (l, []) := by
  induction l with
  | nil => rfl
  | cons x xs ih =>
    have hx : x % k = x := Nat.mod_eq_of_lt (hl x (List.mem_cons_self _ _))
    have ih' := ih (fun y hy => hl y (List.mem_cons_of_mem _ hy))
    have hd : scripted.draw (x :: xs) k = (x % k, xs) := rfl
    simp [draws, hd, hx, ih']

/-- With the index draws given by the tuple `t`, `RandomRunes` returns
`[charset[t 0], ..., charset[t (n-1)]]`. -/
theorem sample_eq (charset : List Rune) (n : Nat) (t : Fin n → Fin charset.length)
    (hc : charset ≠ []) (hmax : n ≤ 2 ^ 46) :
    sample charset n t = some (List.ofFn (fun j => charset.get (t j))) := by
  obtain ⟨out, h1, h2⟩ := RandomRunes_eq scripted (n : Int) charset
    (List.ofFn (fun j => (t j : Nat))) (Int.natCast_nonneg n) (by exact_mod_cast hmax) hc
  have hd := draws_scripted charset.length (List.ofFn (fun j => (t j : Nat)))
    (by
      intro x hx
      rw [List.mem_ofFn] at hx
      obtain ⟨j, rfl⟩ := hx
      exact (t j).isLt)
  rw [List.length_ofFn] at hd
  simp only [Int.toNat_ofNat, hd] at h1 h2
  have hout : out = List.ofFn (fun j => charset.get (t j)) := by
    apply List.map_injective_iff.mpr (Option.some_injective _)
    rw [h2, List.map_ofFn, List.map_ofFn]
    congr 1
    funext j
    simp
  simp [sample, h1, output, hout]

/-- Above the capacity that `make` accepts no index tuple produces a sequence. -/
theorem sample_too_long (charset : List Rune) (n : Nat) (t : Fin n → Fin charset.length)
    (hn : 2 ^ 46 < n) : sample charset n t = none := by
  have h : (2 : Int) ^ 46 < (n : Int) := by exact_mod_cast hn
  rw [sample, RandomRunes_too_long scripted (n : Int) charset _ h]
  rfl

/-- The number of positions of a list that hold `r` is `count r`. -/
theorem card_filter_get_eq_count (l : List Rune) (r : Rune) :
    (Finset.univ.filter (fun i : Fin l.length => l.get i = r)).card = l.count r := by
  induction l with
  | nil => simp
  | cons x xs ih =>
    have := Fin.card_filter_univ_succ' (fun i : Fin (xs.length + 1) => (x :: xs).get i = r)
    simp only [List.length_cons]
    rw [this]
    simp only [List.get_cons_succ', List.get_cons_zero, List.count_cons, beq_iff_eq]
    rw [ih, add_comm]

/-- A tuple produces `s` exactly when it points at `s j` in every position `j`. -/
theorem sample_eq_iff (charset : List Rune) (hc : charset ≠ []) (s : List Rune)
    (hmax : s.length ≤ 2 ^ 46) (t : Fin s.length → Fin charset.length) :
    sample charset s.length t = some s ↔ ∀ j, charset.get (t j) = s.get j := by
  rw [sample_eq charset s.length t hc hmax, Option.some_inj]
  constructor
  · intro h j
    have := congrArg (fun l => l[j.val]?) h
    simpa [List.getElem?_ofFn, List.getElem?_eq_getElem j.isLt] using this
  · intro h
    have : (fun j => charset.get (t j)) = s.get := funext h
    rw [this, List.ofFn_get]

/-- The number of index tuples that produce `s`. -/
theorem card_sample_eq (charset : List Rune) (hc : charset ≠ []) (s : List Rune)
    (hmax : s.length ≤ 2 ^ 46) :
    (Finset.univ.filter
      (fun t : Fin s.length → Fin charset.length => sample charset s.length t = some s)).card
      = (s.map (fun r => charset.count r)).prod := by
  have hset : Finset.univ.filter
      (fun t : Fin s.length → Fin charset.length => sample charset s.length t = some s)
      = Fintype.piFinset (fun j : Fin s.length =>
          Finset.univ.filter (fun i : Fin charset.length => charset.get i = s.get j)) := by
    ext t
    simp [Fintype.mem_piFinset, sample_eq_iff charset hc s hmax t]
  rw [hset, Fintype.card_piFinset]
  simp only [card_filter_get_eq_count]
  exact Fin.prod_univ_get' s (fun r => charset.count r)

/-- The number of index tuples that produce a sequence `s` of length `n`. -/
theorem card_sample_eq_len (charset : List Rune) (hc : charset ≠ []) (n : Nat)
    (hmax : n ≤ 2 ^ 46) (s : List Rune) (hs : s.length = n) :
    (Finset.univ.filter
      (fun t : Fin n → Fin charset.length => sample charset n t = some s)).card
      = (s.map (fun r => charset.count r)).prod := by
  subst hs
  exact card_sample_eq charset hc s hmax

/-- A sequence over the charset has a positive product of occurrence counts. -/
theorem prod_count_pos (charset s : List Rune) (hs : ∀ r ∈ s, r ∈ charset) :
    0 < (s.map (fun r => charset.count r)).prod := by
  apply List.prod_pos
  intro a ha
  rw [List.mem_map] at ha
  obtain ⟨r, hr, rfl⟩ := ha
  exact List.count_pos_iff.mpr (hs r hr)

/-- Without duplicates in the charset every occurrence count of a member is 1. -/
theorem prod_count_nodup (charset s : List Rune) (hd : charset.Nodup)
    (hs : ∀ r ∈ s, r ∈ charset) :
    (s.map (fun r => charset.count r)).prod = 1 := by
  apply List.prod_eq_one
  intro a ha
  rw [List.mem_map] at ha
  obtain ⟨r, hr, rfl⟩ := ha
  exact List.count_eq_one_of_mem hd (hs r hr)

/-- The number of index tuples whose output holds `r` at position `j`. -/
theorem card_sample_position (charset : List Rune) (hc : charset ≠ []) (n : Nat)
    (hmax : n ≤ 2 ^ 46) (j : Fin n) (r : Rune) :
    (Finset.univ.filter
      (fun t : Fin n → Fin charset.length =>
        (sample charset n t).bind (fun out => out[j.val]?) = some r)).card
      = charset.count r * charset.length ^ (n - 1) := by
  have hset : Finset.univ.filter
      (fun t : Fin n → Fin charset.length =>
        (sample charset n t).bind (fun out => out[j.val]?) = some r)
      = Fintype.piFinset (fun i : Fin n =>
          if i = j then Finset.univ.filter (fun c : Fin charset.length => charset.get c = r)
          else Finset.univ) := by
    ext t
    have hget : (List.ofFn (fun i => charset.get (t i)))[j.val]? = some (charset.get (t j)) := by
      rw [List.getElem?_eq_getElem (by simp)]
      simp
    simp only [Finset.mem_filter, Finset.mem_univ, true_and, Fintype.mem_piFinset,
      sample_eq charset n t hc hmax, Option.some_bind, hget, Option.some_inj]
    constructor
    · intro h i
      by_cases hij : i = j
      · subst hij
        simpa using h
      · simp [hij]
    · intro h
      simpa using h j
  rw [hset, Fintype.card_piFinset, ← Finset.mul_prod_erase Finset.univ _ (Finset.mem_univ j)]
  simp only [if_true, card_filter_get_eq_count]
  congr 1
  rw [Finset.prod_congr rfl (fun i hi => by
    rw [if_neg (Finset.ne_of_mem_erase hi)])]
  simp [Finset.card_erase_of_mem]

/-! ## The sampler: claims -/

/-- C1, as stated, fails above the capacity that `make` accepts: for the length
`2^47` and the non-empty charset `[65, 66]` the call panics in `make` and
returns no sequence. -/
theorem RandomRunes_length_above_make_limit :
    (0 : Int) ≤ 2 ^ 47 ∧ ([65, 66] : List Rune) ≠ [] ∧
      RandomRunes lcg (2 ^ 47) [65, 66] 7 = .error .makesliceCapOutOfRange ∧
      ¬ ∃ (out : List Rune) (s' : Nat),
        RandomRunes lcg (2 ^ 47) [65, 66] 7 = .ok (out, s') ∧ (out.length : Int) = 2 ^ 47 := by
  have h : RandomRunes lcg (2 ^ 47) [65, 66] 7 = .error .makesliceCapOutOfRange :=
    RandomRunes_too_long lcg (2 ^ 47) [65, 66] 7 (by norm_num)
  refine ⟨by norm_num, by decide, h, ?_⟩
  rintro ⟨out, s', ho, _⟩
  rw [h] at ho
  cases ho

/-- C1 (amended): for every length `n` with `0 <= n <= 2^46`, the capacities
that `make([]rune, 0, n)` accepts, every non-empty charset and every state of
the random source, `RandomRunes(n, charset)` returns a sequence of exactly `n`
code points. -/
theorem RandomRunes_returns_length {σ : Type} (src : RandSource σ) (n : Int)
    (charset : List Rune) (s : σ) (hn : 0 ≤ n) (hmax : n ≤ 2 ^ 46) (hc : charset ≠ []) :
    ∃ (out : List Rune) (s' : σ),
      RandomRunes src n charset s = .ok (out, s') ∧ (out.length : Int) = n := by
  obtain ⟨out, h1, h2⟩ := RandomRunes_eq src n charset s hn hmax hc
  refine ⟨out, _, h1, ?_⟩
  rw [length_of_map_some h2, draws_length]
  omega

theorem RandomRunes_returns_length_witness :
    (0 : Int) ≤ 3 ∧ (3 : Int) ≤ 2 ^ 46 ∧ ([65, 66] : List Rune) ≠ [] ∧
      ∃ (out : List Rune) (s' : Nat),
        RandomRunes lcg 3 [65, 66] 7 = .ok (out, s') ∧ (out.length : Int) = 3 :=
  ⟨by decide, by norm_num, by decide,
    RandomRunes_returns_length lcg 3 [65, 66] 7 (by decide) (by norm_num) (by decide)⟩

/-- C2: for every length `n >= 0`, every non-empty charset and every state of
the random source, every element of `RandomRunes(n, charset)` is a member of
`charset`: whenever the call returns, all returned elements are in the
charset (for any length and charset), and for `0 <= n <= 2^46` on a non-empty
charset it does return. -/
theorem RandomRunes_mem_charset {σ : Type} (src : RandSource σ) (n : Int)
    (charset : List Rune) (s : σ) :
    (∀ (out : List Rune) (s' : σ),
      RandomRunes src n charset s = .ok (out, s') → ∀ r ∈ out, r ∈ charset) ∧
    (0 ≤ n → n ≤ 2 ^ 46 → charset ≠ [] →
      ∃ (out : List Rune) (s' : σ),
        RandomRunes src n charset s = .ok (out, s') ∧ ∀ r ∈ out, r ∈ charset) := by
  refine ⟨fun out s' h => RandomRunes_ok_mem src n charset s out s' h, ?_⟩
  intro hn hmax hc
  obtain ⟨out, h1, h2⟩ := RandomRunes_eq src n charset s hn hmax hc
  exact ⟨out, _, h1, mem_of_map_some h2⟩

theorem RandomRunes_mem_charset_witness :
    (0 : Int) ≤ 4 ∧ (4 : Int) ≤ 2 ^ 46 ∧ ([65, 66, 67] : List Rune) ≠ [] ∧
      ∃ (out : List Rune) (s' : List Nat),
        RandomRunes scripted 4 [65, 66, 67] [5, 1, 9, 0] = .ok (out, s') ∧
          ∀ r ∈ out, r ∈ ([65, 66, 67] : List Rune) :=
  ⟨by decide, by norm_num, by decide,
    (RandomRunes_mem_charset scripted 4 [65, 66, 67] [5, 1, 9, 0]).2
      (by decide) (by norm_num) (by decide)⟩

/-- C3, as stated, fails at length 0: on the empty charset `RandomRunes`
returns the empty slice and no error is signalled. -/
theorem RandomRunes_empty_charset_zero_returns :
    RandomRunes lcg 0 [] 7 = .ok ([], 7) ∧
      ¬ ∃ e : Panic, RandomRunes lcg 0 [] 7 = .error e := by
  have h : RandomRunes lcg 0 [] 7 = .ok ([], 7) := RandomRunes_zero lcg [] 7
  refine ⟨h, ?_⟩
  rintro ⟨e, he⟩
  rw [h] at he
  cases he

/-- C3 (amended): for every length other than 0, `RandomRunes(length, charset)`
called with an empty charset produces no output and stops with a panic raised
before any division or indexing: for a length from 1 to `2^46` the
invalid-argument panic of `Intn(0)` at the first draw, for a negative length
and for a length above `2^46` the panic of `make`. -/
theorem RandomRunes_empty_charset_panics {σ : Type} (src : RandSource σ) (n : Int) (s : σ)
    (hn : n ≠ 0) :
    RandomRunes src n [] s
      = .error (if 0 < n ∧ n ≤ 2 ^ 46 then Panic.invalidArgumentToIntn
          else Panic.makesliceCapOutOfRange) := by
  by_cases hin : 0 < n ∧ n ≤ 2 ^ 46
  · rw [if_pos hin]
    exact RandomRunes_nil_pos src n s hin.1 hin.2
  · rw [if_neg hin]
    by_cases hneg : n < 0
    · exact RandomRunes_neg src n [] s hneg
    · exact RandomRunes_too_long src n [] s (by omega)

theorem RandomRunes_empty_charset_panics_witness :
    (5 : Int) ≠ 0 ∧
      RandomRunes scripted 5 [] [3, 1, 4]
        = .error (if (0 : Int) < 5 ∧ (5 : Int) ≤ 2 ^ 46 then Panic.invalidArgumentToIntn
            else Panic.makesliceCapOutOfRange) :=
  ⟨by decide, RandomRunes_empty_charset_panics scripted 5 [3, 1, 4] (by decide)⟩

/-- C4: for every negative length and every charset, `RandomRunes` does not
return a sequence: the negative length is rejected by the panic of
`make([]rune, 0, length)` ("makeslice: cap out of range"), raised before the
loop and before any draw. -/
theorem RandomRunes_negative_length {σ : Type} (src : RandSource σ) (n : Int)
    (charset : List Rune) (s : σ) (hn : n < 0) :
    RandomRunes src n charset s = .error .makesliceCapOutOfRange ∧
      ¬ ∃ (out : List Rune) (s' : σ), RandomRunes src n charset s = .ok (out, s') := by
  have h := RandomRunes_neg src n charset s hn
  refine ⟨h, ?_⟩
  rintro ⟨out, s', ho⟩
  rw [h] at ho
  cases ho

theorem RandomRunes_negative_length_witness :
    (-1 : Int) < 0 ∧
      (RandomRunes lcg (-1) [65, 66] 0 = .error .makesliceCapOutOfRange ∧
        ¬ ∃ (out : List Rune) (s' : Nat), RandomRunes lcg (-1) [65, 66] 0 = .ok (out, s')) :=
  ⟨by decide, RandomRunes_negative_length lcg (-1) [65, 66] 0 (by decide)⟩

/-- C5, as stated, fails above the capacity that `make` accepts: for the length
`2^47` and the charset `[10, 20, 30]` the call panics in `make` before any
index is drawn, so it does not return the sequence picked by the drawn
indices. -/
theorem RandomRunes_draw_order_above_make_limit :
    (0 : Int) ≤ 2 ^ 47 ∧ ([10, 20, 30] : List Rune) ≠ [] ∧
      RandomRunes scripted (2 ^ 47) [10, 20, 30] [2, 0, 1]
        = .error .makesliceCapOutOfRange ∧
      ¬ ∃ (out : List Rune) (s' : List Nat),
        RandomRunes scripted (2 ^ 47) [10, 20, 30] [2, 0, 1] = .ok (out, s') := by
  have h : RandomRunes scripted (2 ^ 47) [10, 20, 30] [2, 0, 1]
      = .error .makesliceCapOutOfRange :=
    RandomRunes_too_long scripted (2 ^ 47) [10, 20, 30] [2, 0, 1] (by norm_num)
  refine ⟨by norm_num, by decide, h, ?_⟩
  rintro ⟨out, s', ho⟩
  rw [h] at ho
  cases ho

/-- C5 (amended): for every length `n` with `0 <= n <= 2^46` and non-empty
charset of size `k`, with `i_0, ..., i_(n-1)` the first `n` indices drawn in
order from the random source (each in `[0, k)`), `RandomRunes(n, charset)`
returns the sequence `[charset[i_0], ..., charset[i_(n-1)]]`: there are
exactly `n` draws, and output position `j` is `charset[i_j]`. -/
theorem RandomRunes_draw_order {σ : Type} (src : RandSource σ) (n : Int)
    (charset : List Rune) (s : σ) (hn : 0 ≤ n) (hmax : n ≤ 2 ^ 46) (hc : charset ≠ []) :
    ∃ out : List Rune,
      RandomRunes src n charset s
        = .ok (out, (draws src charset.length n.toNat s).2) ∧
      (draws src charset.length n.toNat s).1.length = n.toNat ∧
      out.length = n.toNat ∧
      out.map some = (draws src charset.length n.toNat s).1.map (fun i => charset[i]?) ∧
      ∀ j : Nat, j < n.toNat →
        ∃ (i : Nat) (r : Rune),
          (draws src charset.length n.toNat s).1[j]? = some i ∧ i < charset.length ∧
            charset[i]? = some r ∧ out[j]? = some r := by
  obtain ⟨out, h1, h2⟩ := RandomRunes_eq src n charset s hn hmax hc
  have hk : 0 < charset.length := List.length_pos.mpr hc
  have hdl := draws_length src charset.length n.toNat s
  have hol : out.length = n.toNat := by rw [length_of_map_some h2, hdl]
  refine ⟨out, h1, hdl, hol, h2, ?_⟩
  intro j hj
  have hji : j < (draws src charset.length n.toNat s).1.length := by omega
  have hjo : j < out.length := by omega
  have hilt : (draws src charset.length n.toNat s).1[j] < charset.length :=
    draws_lt src charset.length n.toNat s hk _ (List.getElem_mem _)
  refine ⟨(draws src charset.length n.toNat s).1[j], out[j],
    List.getElem?_eq_getElem hji, hilt, ?_, List.getElem?_eq_getElem hjo⟩
  have h3 := congrArg (fun l => l[j]?) h2
  simp only [List.getElem?_map, List.getElem?_eq_getElem hji,
    List.getElem?_eq_getElem hjo, Option.map_some'] at h3
  exact (Option.some.inj h3).symm

theorem RandomRunes_draw_order_witness :
    (0 : Int) ≤ 3 ∧ (3 : Int) ≤ 2 ^ 46 ∧ ([10, 20, 30] : List Rune) ≠ [] ∧
      ∃ out : List Rune,
        RandomRunes scripted 3 [10, 20, 30] [2, 0, 1, 2]
          = .ok (out, (draws scripted ([10, 20, 30] : List Rune).length
              (3 : Int).toNat [2, 0, 1, 2]).2) ∧
        (draws scripted ([10, 20, 30] : List Rune).length
          (3 : Int).toNat [2, 0, 1, 2]).1.length = (3 : Int).toNat ∧
        out.length = (3 : Int).toNat ∧
        out.map some
          = (draws scripted ([10, 20, 30] : List Rune).length
              (3 : Int).toNat [2, 0, 1, 2]).1.map
                (fun i => ([10, 20, 30] : List Rune)[i]?) ∧
        ∀ j : Nat, j < (3 : Int).toNat →
          ∃ (i : Nat) (r : Rune),
            (draws scripted ([10, 20, 30] : List Rune).length
              (3 : Int).toNat [2, 0, 1, 2]).1[j]? = some i ∧
            i < ([10, 20, 30] : List Rune).length ∧
            ([10, 20, 30] : List Rune)[i]? = some r ∧ out[j]? = some r :=
  ⟨by decide, by norm_num, by decide,
    RandomRunes_draw_order scripted 3 [10, 20, 30] [2, 0, 1, 2]
      (by decide) (by norm_num) (by decide)⟩

/-- C7: for every non-empty charset and every state of the random source,
`RandomRunes(0, charset)` returns the empty sequence and is not an error. -/
theorem RandomRunes_zero_length {σ : Type} (src : RandSource σ) (charset : List Rune)
    (s : σ) (hc : charset ≠ []) :
    RandomRunes src 0 charset s = .ok ([], s) := by
  have _ := hc
  exact RandomRunes_zero src charset s

theorem RandomRunes_zero_length_witness :
    ([97, 98] : List Rune) ≠ [] ∧ RandomRunes lcg 0 [97, 98] 42 = .ok ([], 42) :=
  ⟨by decide, RandomRunes_zero_length lcg [97, 98] 42 (by decide)⟩

/-- C6, as stated, fails above the capacity that `make` accepts: for the
charset `[65]` and the length `2^47` no index tuple makes `RandomRunes` produce
a sequence, so the sequence of `2^47` times `65`, whose product of occurrence
counts is 1, is produced by 0 tuples and is not reachable. -/
theorem RandomRunes_uniform_above_make_limit :
    ([65] : List Rune) ≠ [] ∧
    (List.replicate (2 ^ 47) (65 : Rune)).length = 2 ^ 47 ∧
    (∀ r ∈ List.replicate (2 ^ 47) (65 : Rune), r ∈ ([65] : List Rune)) ∧
    ((List.replicate (2 ^ 47) (65 : Rune)).map
      (fun r => ([65] : List Rune).count r)).prod = 1 ∧
    (Finset.univ.filter
      (fun t : Fin (2 ^ 47) → Fin ([65] : List Rune).length =>
        sample [65] (2 ^ 47) t = some (List.replicate (2 ^ 47) (65 : Rune)))).card = 0 ∧
    ¬ ∃ t : Fin (2 ^ 47) → Fin ([65] : List Rune).length,
      sample [65] (2 ^ 47) t = some (List.replicate (2 ^ 47) (65 : Rune)) := by
  have hnone : ∀ t : Fin (2 ^ 47) → Fin ([65] : List Rune).length,
      sample [65] (2 ^ 47) t = none :=
    fun t => sample_too_long [65] (2 ^ 47) t (by norm_num)
  refine ⟨by decide, List.length_replicate _ _, ?_, ?_, ?_, ?_⟩
  · intro r hr
    rw [List.eq_of_mem_replicate hr]
    exact List.mem_singleton.mpr rfl
  · have hcount : ([65] : List Rune).count 65 = 1 := by decide
    rw [List.map_replicate, hcount, List.prod_replicate, one_pow]
  · rw [Finset.card_eq_zero, Finset.filter_eq_empty_iff]
    intro t _ h
    rw [hnone t] at h
    cases h
  · rintro ⟨t, h⟩
    rw [hnone t] at h
    cases h

/-- C6 (amended): uniform sampling with replacement. For a non-empty charset of
size `k` and a length `n <= 2^46`, let the `n` index draws range over the `k^n`
tuples of `[0, k)^n`. Every tuple makes `RandomRunes` return a sequence of
length `n` over the charset; each sequence `s` of length `n` is produced by
exactly (product over positions `j` of the number of occurrences of `s_j` in
the charset) tuples; every sequence over the charset is reachable; when the
charset has no duplicate code points each such sequence is produced by exactly
one tuple; and position `j` holds the code point `r` for exactly
`count r * k^(n-1)` tuples, that is with frequency `count r / k`, which is
`1/k` without duplicates. -/
theorem RandomRunes_uniform (charset : List Rune) (n : Nat) (hc : charset ≠ [])
    (hmax : n ≤ 2 ^ 46) :
    Fintype.card (Fin n → Fin charset.length) = charset.length ^ n ∧
    (∀ t : Fin n → Fin charset.length,
      ∃ out : List Rune, sample charset n t = some out ∧ out.length = n ∧
        ∀ r ∈ out, r ∈ charset) ∧
    (∀ s : List Rune, s.length = n →
      (Finset.univ.filter
        (fun t : Fin n → Fin charset.length => sample charset n t = some s)).card
        = (s.map (fun r => charset.count r)).prod) ∧
    (∀ s : List Rune, s.length = n → (∀ r ∈ s, r ∈ charset) →
      ∃ t : Fin n → Fin charset.length, sample charset n t = some s) ∧
    (charset.Nodup → ∀ s : List Rune, s.length = n → (∀ r ∈ s, r ∈ charset) →
      (Finset.univ.filter
        (fun t : Fin n → Fin charset.length => sample charset n t = some s)).card = 1) ∧
    (∀ (j : Fin n) (r : Rune),
      (Finset.univ.filter
        (fun t : Fin n → Fin charset.length =>
          (sample charset n t).bind (fun out => out[j.val]?) = some r)).card
        = charset.count r * charset.length ^ (n - 1)) := by
  refine ⟨by simp, ?_, ?_, ?_, ?_, ?_⟩
  · intro t
    refine ⟨_, sample_eq charset n t hc hmax, by simp, ?_⟩
    intro r hr
    rw [List.mem_ofFn] at hr
    obtain ⟨j, rfl⟩ := hr
    exact List.get_mem _ _ _
  · intro s hs
    exact card_sample_eq_len charset hc n hmax s hs
  · intro s hs hmem
    have hpos : 0 < (Finset.univ.filter
        (fun t : Fin n → Fin charset.length => sample charset n t = some s)).card := by
      rw [card_sample_eq_len charset hc n hmax s hs]
      exact prod_count_pos charset s hmem
    obtain ⟨t, ht⟩ := Finset.card_pos.mp hpos
    exact ⟨t, (Finset.mem_filter.mp ht).2⟩
  · intro hd s hs hmem
    rw [card_sample_eq_len charset hc n hmax s hs]
    exact prod_count_nodup charset s hd hmem
  · intro j r
    exact card_sample_position charset hc n hmax j r

theorem RandomRunes_uniform_witness :
    ([65, 66, 65] : List Rune) ≠ [] ∧ (2 : Nat) ≤ 2 ^ 46 ∧
      (Finset.univ.filter
        (fun t : Fin 2 → Fin ([65, 66, 65] : List Rune).length =>
          sample [65, 66, 65] 2 t = some [65, 66])).card
        = (([65, 66] : List Rune).map (fun r => ([65, 66, 65] : List Rune).count r)).prod ∧
      (([65, 66] : List Rune).map (fun r => ([65, 66, 65] : List Rune).count r)).prod = 2 :=
  ⟨by decide, by norm_num,
    (RandomRunes_uniform [65, 66, 65] 2 (by decide) (by norm_num)).2.2.1 [65, 66] rfl,
    by decide⟩

/-! ## The catalog: claims -/

set_option maxRecDepth 1000000 in
/-- Decoded, `Unicode` is the concatenation of its constituents' runes in
declared order. -/
theorem runes_Unicode :
    runes Unicode
      = runes Emoji ++ runes Sex ++ runes Keyboard ++ runes Currencies ++ runes Greek ++
        runes MathematicalSymbols ++ runes MathematicalFonts ++ runes InvertedLetters ++
        runes Braille ++ runes IPA ++ runes FullWidthCharacters ++ runes Units ++
        runes Latin ++ runes Cyrillic ++ runes Chinese ++ runes Japanese ++ runes Korean ++
        runes Arabic ++ runes Ethiopian ++ runes Devanagari ++ runes Bengali ++
        runes Tamil ++ runes Tibetan ++ runes Phoenician ++ runes Runes := by
  decide

set_option maxRecDepth 1000000 in
/-- Decoded, `Cyrillic` is the runes of `Russian` followed by the runes of its
literal suffix. -/
theorem runes_Cyrillic :
    runes Cyrillic = runes Russian ++ runes cyrillicSuffix ∧
      runes cyrillicSuffix
        = [0x506, 0x4a4, 0x482, 0x514, 0x519, 0x4dc, 0x528, 0x52c, 0x4e6, 0x4f4, 0x460,
            0x47c] := by
  decide

/-- C8: each composite catalog entry, decoded to code points, is the
concatenation in declared order of the code-point sequences of its
constituents (`Unicode` of its 25 constituents, `Cyrillic` of `Russian` and
the 12 code points of its literal suffix); hence the number of occurrences of
every code point in a composite is the sum of its occurrences in the
constituents. -/
theorem composite_is_concatenation :
    runes Unicode
      = runes Emoji ++ runes Sex ++ runes Keyboard ++ runes Currencies ++ runes Greek ++
        runes MathematicalSymbols ++ runes MathematicalFonts ++ runes InvertedLetters ++
        runes Braille ++ runes IPA ++ runes FullWidthCharacters ++ runes Units ++
        runes Latin ++ runes Cyrillic ++ runes Chinese ++ runes Japanese ++ runes Korean ++
        runes Arabic ++ runes Ethiopian ++ runes Devanagari ++ runes Bengali ++
        runes Tamil ++ runes Tibetan ++ runes Phoenician ++ runes Runes ∧
    runes Cyrillic
      = runes Russian ++
        [0x506, 0x4a4, 0x482, 0x514, 0x519, 0x4dc, 0x528, 0x52c, 0x4e6, 0x4f4, 0x460,
          0x47c] ∧
    (∀ r : Rune,
      (runes Unicode).count r
        = (runes Emoji).count r + (runes Sex).count r + (runes Keyboard).count r +
          (runes Currencies).count r + (runes Greek).count r +
          (runes MathematicalSymbols).count r + (runes MathematicalFonts).count r +
          (runes InvertedLetters).count r + (runes Braille).count r + (runes IPA).count r +
          (runes FullWidthCharacters).count r + (runes Units).count r +
          (runes Latin).count r + (runes Cyrillic).count r + (runes Chinese).count r +
          (runes Japanese).count r + (runes Korean).count r + (runes Arabic).count r +
          (runes Ethiopian).count r + (runes Devanagari).count r +
          (runes Bengali).count r + (runes Tamil).count r + (runes Tibetan).count r +
          (runes Phoenician).count r + (runes Runes).count r) ∧
    (∀ r : Rune,
      (runes Cyrillic).count r
        = (runes Russian).count r +
          ([0x506, 0x4a4, 0x482, 0x514, 0x519, 0x4dc, 0x528, 0x52c, 0x4e6, 0x4f4, 0x460,
            0x47c] : List Rune).count r) := by
  have hc : runes Cyrillic
      = runes Russian ++
        [0x506, 0x4a4, 0x482, 0x514, 0x519, 0x4dc, 0x528, 0x52c, 0x4e6, 0x4f4, 0x460,
          0x47c] := by
    rw [runes_Cyrillic.1, runes_Cyrillic.2]
  refine ⟨runes_Unicode, hc, ?_, ?_⟩
  · intro r
    rw [runes_Unicode]
    simp only [List.count_append]
  · intro r
    rw [hc, List.count_append]

set_option maxRecDepth 1000000 in
/-- C9: every one of the 30 named catalog entries decodes to a sequence of at
least one code point, each of which is a valid Unicode scalar value (at most
U+10FFFF, not a surrogate) and is not the U+FFFD of a decoding error; so each
entry satisfies the non-empty precondition of the sampler. -/
theorem catalog_entries_valid :
    catalog.length = 30 ∧
    ∀ s ∈ catalog,
      runes s ≠ [] ∧ ∀ r ∈ runes s, isScalarValue r ∧ r ≠ runeError := by
  decide

set_option maxRecDepth 1000000 in
/-- The entry `ASCII` is not empty, its bytes are all below `0x80`, and its runes
are all in `[0, 128)`. -/
theorem ASCII_bytes_and_runes :
    runes ASCII ≠ [] ∧ (∀ b ∈ ASCII, b < 0x80) ∧ ASCII.length = (runes ASCII).length ∧
      ∀ r ∈ runes ASCII, 0 ≤ r ∧ r < 128 := by
  decide

/-- C10: every code point of the `ASCII` catalog entry is an ASCII character
(value below 128, one byte in UTF-8: the entry has as many bytes as runes and
every byte is below `0x80`), so every element that
`RandomRunes(n, []rune(ASCII))` returns is an ASCII character; and for
`0 <= n <= 2^46` it does return `n` of them. -/
theorem RandomRunes_ASCII_only_ascii :
    (∀ r ∈ runes ASCII, 0 ≤ r ∧ r < 128) ∧
    (∀ b ∈ ASCII, b < 0x80) ∧
    ASCII.length = (runes ASCII).length ∧
    (∀ (σ : Type) (src : RandSource σ) (n : Int) (s : σ) (out : List Rune) (s' : σ),
      RandomRunes src n (runes ASCII) s = .ok (out, s') → ∀ r ∈ out, 0 ≤ r ∧ r < 128) ∧
    (∀ (σ : Type) (src : RandSource σ) (n : Int) (s : σ), 0 ≤ n → n ≤ 2 ^ 46 →
      ∃ (out : List Rune) (s' : σ),
        RandomRunes src n (runes ASCII) s = .ok (out, s') ∧ (out.length : Int) = n ∧
          ∀ r ∈ out, 0 ≤ r ∧ r < 128) := by
  obtain ⟨hne, hbytes, hlen, hrunes⟩ := ASCII_bytes_and_runes
  refine ⟨hrunes, hbytes, hlen, ?_, ?_⟩
  · intro σ src n s out s' hrun r hr
    exact hrunes r (RandomRunes_ok_mem src n (runes ASCII) s out s' hrun r hr)
  · intro σ src n s hn hmax
    obtain ⟨out, h1, h2⟩ := RandomRunes_eq src n (runes ASCII) s hn hmax hne
    refine ⟨out, _, h1, ?_, fun r hr => hrunes r (mem_of_map_some h2 r hr)⟩
    rw [length_of_map_some h2, draws_length]
    omega

theorem RandomRunes_ASCII_only_ascii_witness :
    (0 : Int) ≤ 5 ∧ (5 : Int) ≤ 2 ^ 46 ∧
      ∃ (out : List Rune) (s' : Nat),
        RandomRunes lcg 5 (runes ASCII) 2024 = .ok (out, s') ∧ (out.length : Int) = 5 ∧
          ∀ r ∈ out, 0 ≤ r ∧ r < 128 :=
  ⟨by decide, by norm_num,
    RandomRunes_ASCII_only_ascii.2.2.2.2 Nat lcg 5 2024 (by decide) (by norm_num)⟩

/-! ## The sampler on the store: auxiliary facts -/

/-- The run on the store and the function `RandomRunes` agree on what the
caller observes, for the loop started from any store. -/
theorem result_iterations {σ : Type} (src : RandSource σ) (k : Nat) (m : Store σ) :
    result (iterations src k m) = loop src m.charset k m.output m.rand := by
  induction k generalizing m with
  | zero => rfl
  | succ k ih =>
    rcases hI : Intn src m.rand (m.charset.length : Int) with e | ⟨i, s'⟩
    · simp only [iterations, iteration, loop, hI, result]
    · rcases hx : index m.charset i with e | r
      · simp only [iterations, iteration, loop, hI, hx, result]
      · simp only [iterations, iteration, loop, hI, hx, ih]

/-- The run on the store and `RandomRunes` agree on what the caller observes. -/
theorem result_run {σ : Type} (src : RandSource σ) (n : Int) (charset : List Rune) (s : σ) :
    result (run src n charset s) = RandomRunes src n charset s := by
  rcases hm : makeslice n with e | out
  · simp only [run, RandomRunes, hm, result]
  · simp only [run, RandomRunes, hm]
    exact result_iterations src n.toNat _

/-- A loop on the store that runs to its end leaves the charset as it was, has
made one draw and one append per iteration, and has advanced the generator
by that many draws. -/
theorem iterations_ok {σ : Type} (src : RandSource σ) (k : Nat) (m m' : Store σ)
    (h : iterations src k m = .ok m') :
    m'.charset = m.charset ∧ m'.calls = m.calls + k ∧
      m'.output.length = m.output.length + k ∧
      m'.rand = (fun t => (src.draw t m.charset.length).2)^[k] m.rand := by
  induction k generalizing m with
  | zero =>
    simp only [iterations, Except.ok.injEq] at h
    subst h
    simp
  | succ k ih =>
    simp only [iterations, iteration] at h
    rcases hI : Intn src m.rand (m.charset.length : Int) with e | ⟨i, s'⟩
    · simp [hI] at h
    · have hs' : s' = (src.draw m.rand m.charset.length).2 := by
        unfold Intn at hI
        split at hI
        · cases hI
        · simp only [Except.ok.injEq, Prod.mk.injEq, Int.toNat_ofNat] at hI
          exact hI.2.symm
      rcases hx : index m.charset i with e | r
      · simp [hI, hx] at h
      · simp only [hI, hx] at h
        obtain ⟨h1, h2, h3, h4⟩ := ih _ h
        simp only at h1 h2 h3 h4
        refine ⟨h1, by omega, ?_, ?_⟩
        · simp only [List.length_append, List.length_singleton] at h3
          omega
        · rw [h4, Function.iterate_succ_apply, hs']

/-- On a non-empty charset and for a length from 0 to `2^46` the run on the
store returns. -/
theorem run_ok {σ : Type} (src : RandSource σ) (n : Int) (charset : List Rune) (s : σ)
    (hn : 0 ≤ n) (hmax : n ≤ 2 ^ 46) (hc : charset ≠ []) :
    ∃ m : Store σ, run src n charset s = .ok m ∧
      RandomRunes src n charset s = .ok (m.output, m.rand) ∧
      m.charset = charset ∧ m.calls = n.toNat ∧ m.output.length = n.toNat ∧
      m.rand = (fun t => (src.draw t charset.length).2)^[n.toNat] s := by
  obtain ⟨out, h1, _⟩ := RandomRunes_eq src n charset s hn hmax hc
  have hr := result_run src n charset s
  rcases hrun : run src n charset s with ⟨e, m'⟩ | m
  · rw [hrun, h1] at hr
    simp [result] at hr
  · rw [hrun] at hr
    have hit : iterations src n.toNat (enter charset s) = .ok m := by
      simpa [run, makeslice_ok n hn hmax, enter] using hrun
    obtain ⟨a, b, c, d⟩ := iterations_ok src n.toNat (enter charset s) m hit
    refine ⟨m, rfl, ?_, a, ?_, ?_, d⟩
    · rw [← hr]
      rfl
    · simpa [enter] using b
    · simpa [enter] using c

/-- A negative length: the run on the store stops at `make`, in the entry store. -/
theorem run_neg {σ : Type} (src : RandSource σ) (n : Int) (charset : List Rune) (s : σ)
    (hn : n < 0) :
    run src n charset s = .error (.makesliceCapOutOfRange, enter charset s) := by
  simp [run, makeslice_neg n hn]

/-- A length above `2^46`: the run on the store stops at `make`, in the entry
store. -/
theorem run_too_long {σ : Type} (src : RandSource σ) (n : Int) (charset : List Rune) (s : σ)
    (hn : 2 ^ 46 < n) :
    run src n charset s = .error (.makesliceCapOutOfRange, enter charset s) := by
  simp [run, makeslice_too_long n hn]

/-- Length zero: the run on the store returns the entry store. -/
theorem run_zero {σ : Type} (src : RandSource σ) (charset : List Rune) (s : σ) :
    run src 0 charset s = .ok (enter charset s) := by
  simp [run, makeslice_ok 0 (le_refl 0) (by norm_num), iterations, enter]

/-- A positive length up to `2^46` on the empty charset: the run on the store
stops at the first `Intn(0)`, in the entry store. -/
theorem run_nil_pos {σ : Type} (src : RandSource σ) (n : Int) (s : σ) (hn : 0 < n)
    (hmax : n ≤ 2 ^ 46) :
    run src n [] s = .error (.invalidArgumentToIntn, enter [] s) := by
  obtain ⟨k, hk⟩ : ∃ k, n.toNat = k + 1 := ⟨n.toNat - 1, by omega⟩
  simp [run, makeslice_ok n (by omega) hmax, hk, iterations, iteration, Intn, enter]

/-- For a length from 1 to `2^46` on a non-empty charset, the first returned
element is the charset element at the first drawn index. -/
theorem RandomRunes_head {σ : Type} (src : RandSource σ) (n : Int) (charset : List Rune)
    (s : σ) (hn : 1 ≤ n) (hmax : n ≤ 2 ^ 46) (hc : charset ≠ []) :
    ∃ (out : List Rune) (s' : σ),
      RandomRunes src n charset s = .ok (out, s') ∧
        out[0]? = charset[(src.draw s charset.length).1]? := by
  obtain ⟨out, h1, h2⟩ := RandomRunes_eq src n charset s (by omega) hmax hc
  refine ⟨out, _, h1, ?_⟩
  obtain ⟨k, hk⟩ : ∃ k, n.toNat = k + 1 := ⟨n.toNat - 1, by omega⟩
  have hlt : (src.draw s charset.length).1 < charset.length :=
    src.draw_lt s charset.length (List.length_pos.mpr hc)
  rw [hk] at h2
  have h3 := congrArg (fun l => l[0]?) h2
  simp only [draws, List.map_cons, List.getElem?_cons_zero, List.getElem?_map] at h3
  rw [List.getElem?_eq_getElem hlt] at h3 ⊢
  cases ho : out[0]? with
  | none => simp [ho] at h3
  | some r =>
    rw [ho] at h3
    simpa using h3

/-- Two runs whose generators yield the same index draws return the same
sequence, each leaving its generator in the state after those draws. -/
theorem RandomRunes_same_draws {σ τ : Type} (src : RandSource σ) (src' : RandSource τ)
    (n : Int) (charset : List Rune) (s : σ) (s' : τ) (hn : 0 ≤ n) (hmax : n ≤ 2 ^ 46)
    (hc : charset ≠ [])
    (hd : (draws src charset.length n.toNat s).1 = (draws src' charset.length n.toNat s').1) :
    ∃ out : List Rune,
      RandomRunes src n charset s = .ok (out, (draws src charset.length n.toNat s).2) ∧
        RandomRunes src' n charset s'
          = .ok (out, (draws src' charset.length n.toNat s').2) := by
  obtain ⟨out, h1, h2⟩ := RandomRunes_eq src n charset s hn hmax hc
  obtain ⟨out', h1', h2'⟩ := RandomRunes_eq src' n charset s' hn hmax hc
  have : out = out' := by
    apply List.map_injective_iff.mpr (Option.some_injective _)
    rw [h2, h2', hd]
  subst this
  exact ⟨out, h1, h1'⟩

/-- Two runs whose first drawn indices point at different charset elements
return different sequences. -/
theorem RandomRunes_output_ne {σ : Type} (src : RandSource σ) (n : Int)
    (charset : List Rune) (s1 s2 : σ) (hn : 1 ≤ n) (hmax : n ≤ 2 ^ 46) (hc : charset ≠ [])
    (hd : charset[(src.draw s1 charset.length).1]?
      ≠ charset[(src.draw s2 charset.length).1]?) :
    output (RandomRunes src n charset s1) ≠ output (RandomRunes src n charset s2) := by
  obtain ⟨out1, t1, h1, g1⟩ := RandomRunes_head src n charset s1 hn hmax hc
  obtain ⟨out2, t2, h2, g2⟩ := RandomRunes_head src n charset s2 hn hmax hc
  rw [h1, h2]
  intro h
  have h12 : out1 = out2 := by
    simpa [output] using h
  apply hd
  rw [← g1, ← g2, h12]

/-- The generator `stuck` yields index 0 at every draw, from every state. -/
theorem draws_stuck (k n s : Nat) : (draws stuck k n s).1 = List.replicate n 0 := by
  induction n generalizing s with
  | zero => rfl
  | succ n ih =>
    have hd : stuck.draw s k = (0, s + 1) := rfl
    simp only [draws, hd, ih, List.replicate_succ]

/-! ## Later claims -/

set_option maxRecDepth 1000000 in
/-- C11: the `Polish` entry holds code points that are not letters of the
Polish alphabet. Its rune at index 39 is `v`, which is none of the 32 letters
(in lower or upper case); of its runes exactly `v`, `x`, `V` and `X` are not
Polish letters, so not every code point of `Polish` is a Polish letter; every code point of `English` is a letter `a`-`z` or `A`-`Z`. -/
theorem Polish_holds_non_polish_letters :
    (runes polishAlphabet).length = 64 ∧ (runes polishAlphabet).Nodup ∧
    (runes Polish)[39]? = some 0x76 ∧ ¬ isPolishLetter 0x76 ∧
    (runes Polish).filter (fun r => ¬ isPolishLetter r) = [0x76, 0x78, 0x56, 0x58] ∧
    ¬ (∀ r ∈ runes Polish, isPolishLetter r) ∧
    (∀ r ∈ runes English, isEnglishLetter r) := by
  decide

/-- C12, as stated, fails above the capacity that `make` accepts: for the
length `2^47` and the charset `[65, 66]` the call panics in `make` in the entry
store, so the random source is advanced by no draw instead of `2^47` draws. -/
theorem RandomRunes_frame_above_make_limit :
    (0 : Int) ≤ 2 ^ 47 ∧ ([65, 66] : List Rune) ≠ [] ∧
      run lcg (2 ^ 47) [65, 66] 7
        = .error (.makesliceCapOutOfRange,
            { charset := [65, 66], output := [], rand := 7, calls := 0 }) ∧
      ¬ ∃ m : Store Nat,
        run lcg (2 ^ 47) [65, 66] 7 = .ok m ∧ m.calls = ((2 : Int) ^ 47).toNat := by
  have h : run lcg (2 ^ 47) [65, 66] 7
      = .error (.makesliceCapOutOfRange, enter [65, 66] 7) :=
    run_too_long lcg (2 ^ 47) [65, 66] 7 (by norm_num)
  refine ⟨by norm_num, by decide, h, ?_⟩
  rintro ⟨m, hm, _⟩
  rw [h] at hm
  cases hm

/-- C12 (amended): the only side effect of `RandomRunes` is advancing the
random source. For every length `n` with `0 <= n <= 2^46` and non-empty charset
the call returns with the charset as it was passed in and with the generator
advanced by exactly `n` index draws (none when `n = 0`); the returned slice
and the new generator state are the value of the function `RandomRunes` of
the length, the charset and the generator's state. -/
theorem RandomRunes_frame {σ : Type} (src : RandSource σ) (n : Int) (charset : List Rune)
    (s : σ) (hn : 0 ≤ n) (hmax : n ≤ 2 ^ 46) (hc : charset ≠ []) :
    ∃ m : Store σ,
      run src n charset s = .ok m ∧
      m.charset = charset ∧
      m.calls = n.toNat ∧
      m.rand = (fun t => (src.draw t charset.length).2)^[n.toNat] s ∧
      (n = 0 → m.calls = 0 ∧ m.rand = s) ∧
      RandomRunes src n charset s = .ok (m.output, m.rand) := by
  obtain ⟨m, h1, h2, h3, h4, _, h6⟩ := run_ok src n charset s hn hmax hc
  refine ⟨m, h1, h3, h4, h6, ?_, h2⟩
  intro h0
  subst h0
  exact ⟨by simpa using h4, by simpa using h6⟩

theorem RandomRunes_frame_witness :
    (0 : Int) ≤ 3 ∧ (3 : Int) ≤ 2 ^ 46 ∧ ([65, 66] : List Rune) ≠ [] ∧
      ∃ m : Store Nat,
        run lcg 3 [65, 66] 7 = .ok m ∧
        m.charset = [65, 66] ∧
        m.calls = (3 : Int).toNat ∧
        m.rand = (fun t => (lcg.draw t ([65, 66] : List Rune).length).2)^[(3 : Int).toNat] 7 ∧
        ((3 : Int) = 0 → m.calls = 0 ∧ m.rand = 7) ∧
        RandomRunes lcg 3 [65, 66] 7 = .ok (m.output, m.rand) :=
  ⟨by decide, by norm_num, by decide,
    RandomRunes_frame lcg 3 [65, 66] 7 (by decide) (by norm_num) (by decide)⟩

/-- C13, as stated, fails above the capacity that `make` accepts: on the empty
charset with the length `2^47 > 0` the failure is the panic of `make`, raised
before the loop, and not the panic of the first draw. -/
theorem RandomRunes_first_draw_above_make_limit :
    (0 : Int) < 2 ^ 47 ∧
      run lcg (2 ^ 47) [] 7
        = .error (.makesliceCapOutOfRange,
            { charset := [], output := [], rand := 7, calls := 0 }) ∧
      run lcg (2 ^ 47) [] 7
        ≠ .error (.invalidArgumentToIntn,
            { charset := [], output := [], rand := 7, calls := 0 }) := by
  have h : run lcg (2 ^ 47) [] 7 = .error (.makesliceCapOutOfRange, enter [] 7) :=
    run_too_long lcg (2 ^ 47) [] 7 (by norm_num)
  refine ⟨by norm_num, h, ?_⟩
  rw [h]
  intro hne
  injection hne with hne
  injection hne with hp _
  cases hp

/-- C13 (amended): `RandomRunes` has no partial-failure mode. For every input
the call either returns the complete sequence of `length` elements, or panics
with no element appended to the output and the random source not advanced; on
an empty charset with `0 < length <= 2^46` the panic is the one of the first
draw, `Intn(0)`, and for a length above `2^46` it is the one of `make`, before
the loop. -/
theorem RandomRunes_no_partial_failure {σ : Type} (src : RandSource σ) (n : Int)
    (charset : List Rune) (s : σ) :
    ((∃ m : Store σ,
        run src n charset s = .ok m ∧
        RandomRunes src n charset s = .ok (m.output, m.rand) ∧
        (m.output.length : Int) = n) ∨
      (∃ (e : Panic) (m : Store σ),
        run src n charset s = .error (e, m) ∧
        RandomRunes src n charset s = .error e ∧
        m.output = [] ∧ m.rand = s ∧ m.calls = 0 ∧ m.charset = charset)) ∧
    (0 < n → n ≤ 2 ^ 46 →
      run src n [] s
        = .error (.invalidArgumentToIntn,
            { charset := [], output := [], rand := s, calls := 0 })) ∧
    (2 ^ 46 < n →
      run src n charset s
        = .error (.makesliceCapOutOfRange,
            { charset := charset, output := [], rand := s, calls := 0 })) := by
  refine ⟨?_, fun hpos hmax => run_nil_pos src n s hpos hmax,
    fun hlong => run_too_long src n charset s hlong⟩
  by_cases hneg : n < 0
  · exact Or.inr ⟨_, _, run_neg src n charset s hneg, RandomRunes_neg src n charset s hneg,
      rfl, rfl, rfl, rfl⟩
  · by_cases hlong : 2 ^ 46 < n
    · exact Or.inr ⟨_, _, run_too_long src n charset s hlong,
        RandomRunes_too_long src n charset s hlong, rfl, rfl, rfl, rfl⟩
    · have hmax : n ≤ 2 ^ 46 := by omega
      by_cases hc : charset = []
      · subst hc
        by_cases h0 : n = 0
        · subst h0
          exact Or.inl ⟨_, run_zero src [] s, RandomRunes_zero src [] s, rfl⟩
        · have hpos : 0 < n := by omega
          exact Or.inr ⟨_, _, run_nil_pos src n s hpos hmax,
            RandomRunes_nil_pos src n s hpos hmax, rfl, rfl, rfl, rfl⟩
      · obtain ⟨m, h1, h2, _, _, h5, _⟩ := run_ok src n charset s (by omega) hmax hc
        exact Or.inl ⟨m, h1, h2, by omega⟩

theorem RandomRunes_no_partial_failure_witness :
    (0 : Int) < 2 ∧ (2 : Int) ≤ 2 ^ 46 ∧
      run scripted 2 [] [1, 0]
        = .error (.invalidArgumentToIntn,
            { charset := [], output := [], rand := [1, 0], calls := 0 }) :=
  ⟨by decide, by norm_num,
    (RandomRunes_no_partial_failure scripted 2 [] [1, 0]).2.1 (by decide) (by norm_num)⟩

/-- C14, as stated, fails in its converse. For the length `2^47 >= 1` and the
charset `[65, 66]`, which has two distinct code points, every run of every
random source panics in `make`, so no two states give different outputs; and
within the capacity of `make`, at length 1, the generator `stuck`, which
yields index 0 from every state, returns the same sequence from any two
states. -/
theorem RandomRunes_outputs_agree :
    (1 : Int) ≤ 2 ^ 47 ∧ ([65, 66] : List Rune) ≠ [] ∧
      (∃ a b : Rune, a ∈ ([65, 66] : List Rune) ∧ b ∈ ([65, 66] : List Rune) ∧ a ≠ b) ∧
      (¬ ∃ (σ : Type) (src : RandSource σ) (s1 s2 : σ),
        output (RandomRunes src (2 ^ 47) [65, 66] s1)
          ≠ output (RandomRunes src (2 ^ 47) [65, 66] s2)) ∧
      (¬ ∃ s1 s2 : Nat,
        output (RandomRunes stuck 1 [65, 66] s1)
          ≠ output (RandomRunes stuck 1 [65, 66] s2)) := by
  refine ⟨by norm_num, by decide, ⟨65, 66, by decide, by decide, by decide⟩, ?_, ?_⟩
  · rintro ⟨σ, src, s1, s2, h⟩
    apply h
    rw [RandomRunes_too_long src (2 ^ 47) [65, 66] s1 (by norm_num),
      RandomRunes_too_long src (2 ^ 47) [65, 66] s2 (by norm_num)]
  · rintro ⟨s1, s2, h⟩
    apply h
    obtain ⟨out, h1, h2⟩ := RandomRunes_same_draws stuck stuck 1 [65, 66] s1 s2
      (by decide) (by norm_num) (by decide) (by rw [draws_stuck, draws_stuck])
    rw [h1, h2]
    rfl

/-- C14 (amended): determinism relative to the random source. For every length
`n` with `0 <= n <= 2^46` and non-empty charset, two runs whose random sources
yield the same index draws (sources in the same state among them) return
equal sequences, and each leaves its source in the state after those `n`
draws. Conversely, for `1 <= n <= 2^46`, two states of the source whose first
drawn indices point at different code points give different outputs; for a
charset with at least two distinct code points such states exist for the
generator that replays a script of indices. -/
theorem RandomRunes_deterministic (n : Int) (charset : List Rune) (hn : 0 ≤ n)
    (hmax : n ≤ 2 ^ 46) (hc : charset ≠ []) :
    (∀ (σ τ : Type) (src : RandSource σ) (src' : RandSource τ) (s : σ) (s' : τ),
      (draws src charset.length n.toNat s).1 = (draws src' charset.length n.toNat s').1 →
      ∃ out : List Rune,
        RandomRunes src n charset s
          = .ok (out, (draws src charset.length n.toNat s).2) ∧
        RandomRunes src' n charset s'
          = .ok (out, (draws src' charset.length n.toNat s').2)) ∧
    (∀ (σ : Type) (src : RandSource σ) (s1 s2 : σ), 1 ≤ n →
      charset[(src.draw s1 charset.length).1]? ≠ charset[(src.draw s2 charset.length).1]? →
      output (RandomRunes src n charset s1) ≠ output (RandomRunes src n charset s2)) ∧
    (1 ≤ n → (∃ a b : Rune, a ∈ charset ∧ b ∈ charset ∧ a ≠ b) →
      ∃ s1 s2 : List Nat,
        output (RandomRunes scripted n charset s1)
          ≠ output (RandomRunes scripted n charset s2)) := by
  refine ⟨?_, ?_, ?_⟩
  · intro σ τ src src' s s' hd
    exact RandomRunes_same_draws src src' n charset s s' hn hmax hc hd
  · intro σ src s1 s2 h1 hd
    exact RandomRunes_output_ne src n charset s1 s2 h1 hmax hc hd
  · rintro h1 ⟨a, b, ha, hb, hab⟩
    obtain ⟨i, hi⟩ := List.mem_iff_getElem?.mp ha
    obtain ⟨j, hj⟩ := List.mem_iff_getElem?.mp hb
    obtain ⟨hil, _⟩ := List.getElem?_eq_some_iff.mp hi
    obtain ⟨hjl, _⟩ := List.getElem?_eq_some_iff.mp hj
    refine ⟨[i], [j], RandomRunes_output_ne scripted n charset [i] [j] h1 hmax hc ?_⟩
    have di : (scripted.draw [i] charset.length).1 = i := Nat.mod_eq_of_lt hil
    have dj : (scripted.draw [j] charset.length).1 = j := Nat.mod_eq_of_lt hjl
    rw [di, dj, hi, hj]
    intro h
    exact hab (Option.some.inj h)

theorem RandomRunes_deterministic_witness :
    (0 : Int) ≤ 2 ∧ (2 : Int) ≤ 2 ^ 46 ∧ ([10, 20] : List Rune) ≠ [] ∧ (1 : Int) ≤ 2 ∧
      (∃ a b : Rune, a ∈ ([10, 20] : List Rune) ∧ b ∈ ([10, 20] : List Rune) ∧ a ≠ b) ∧
      ∃ s1 s2 : List Nat,
        output (RandomRunes scripted 2 [10, 20] s1)
          ≠ output (RandomRunes scripted 2 [10, 20] s2) :=
  ⟨by decide, by norm_num, by decide, by decide,
    ⟨10, 20, by decide, by decide, by decide⟩,
    (RandomRunes_deterministic 2 [10, 20] (by decide) (by norm_num) (by decide)).2.2
      (by decide) ⟨10, 20, by decide, by decide, by decide⟩⟩

/-- C15: for length 0 the loop body never runs: `RandomRunes(0, charset)`
returns the empty sequence for every charset, the empty charset included,
without a panic and without drawing from the random source, whose state is
left as it was. -/
theorem RandomRunes_zero_any_charset {σ : Type} (src : RandSource σ) (charset : List Rune)
    (s : σ) :
    RandomRunes src 0 charset s = .ok ([], s) ∧
    RandomRunes src 0 [] s = .ok ([], s) ∧
    run src 0 charset s
      = .ok { charset := charset, output := [], rand := s, calls := 0 } ∧
    run src 0 [] s = .ok { charset := [], output := [], rand := s, calls := 0 } :=
  ⟨RandomRunes_zero src charset s, RandomRunes_zero src [] s, run_zero src charset s,
    run_zero src [] s⟩

end Charset
